import Mathlib

/-!
Verification of the minebot decision-and-execution core.

The development shallowly embeds the three core modules of the bot:

* `src/core/brain.js` — response cleaning (`cleanJsonResponse`), response
  validation (`validateResponse`) and the arbiter (`think`);
* `src/core/goals.js` — the deterministic planner (`analyzeInventory`,
  `findNearbyLogType`, `getPickaxeAction`, `getNextAction`);
* `src/core/actions.js` — the single-flight executor (`setBusy`,
  `executeExplore`, `executeAction`).

Strings manipulated character-by-character (the response cleaner) are
modelled as `List Char`; JavaScript objects produced by `JSON.parse` are
modelled by the inductive `JSValue`; the world observed through the
mineflayer capability (inventory listing, crafting-table reachability,
visible log blocks) is modelled by the structure `BotView`; the outcome of
each asynchronous handler is an explicit input (`HandlerEnv`), and the
`Promise.race` inside the explore handler is an explicit `RaceOutcome`.
-/

/-- A JavaScript value as produced by `JSON.parse`: `null`, a boolean, a
number, a string, an array, or an object (an ordered field list). -/
inductive JSValue where
  | null
  | bool (b : Bool)
  | num (n : Int)
  | str (s : String)
  | arr (elems : List JSValue)
  | obj (fields : List (String × JSValue))

/-- Property read `o[k]` on an object's field list; `none` models the
JavaScript value `undefined` (the key is absent). -/
def getField (fields : List (String × JSValue)) (k : String) : Option JSValue :=
  match fields with
  | [] => none
  | (k2, v) :: rest => if k2 = k then some v else getField rest k

/-- Property write `o[k] = v`: overwrite in place if the key exists,
append otherwise. -/
def setField (fields : List (String × JSValue)) (k : String) (v : JSValue) :
    List (String × JSValue) :=
  match fields with
  | [] => [(k, v)]
  | (k2, w) :: rest => if k2 = k then (k2, v) :: rest else (k2, w) :: setField rest k v

/-- JavaScript truthiness of a property read: `undefined`, `null`, `false`,
`0` and the empty string are falsy; everything else is truthy. -/
def truthy : Option JSValue → Bool
  | none => false
  | some .null => false
  | some (.bool b) => b
  | some (.num n) => n != 0
  | some (.str s) => !(s = "")
  | some (.arr _) => true
  | some (.obj _) => true

/-- The `validActions` list of `validateResponse` in `src/core/brain.js`. -/
def validActions : List String :=
  ["mine", "craft", "place", "explore", "fight", "eat", "chat", "wait"]

/-- `if (response.target === undefined) response.target = ''` of
`validateResponse`. -/
def targetRepaired (fields : List (String × JSValue)) : List (String × JSValue) :=
  if (getField fields "target").isNone then setField fields "target" (.str "") else fields

/-- `if (!response.reason) response.reason = 'No reason provided'` of
`validateResponse`. -/
def reasonRepaired (fields : List (String × JSValue)) : List (String × JSValue) :=
  if truthy (getField fields "reason") then fields
  else setField fields "reason" (.str "No reason provided")

/-- The mutated object `validateResponse` returns on success: target
defaulted, then reason defaulted. -/
def repairedFields (fields : List (String × JSValue)) : List (String × JSValue) :=
  reasonRepaired (targetRepaired fields)

/-- `validateResponse` from `src/core/brain.js`.  A non-object (including
`null`, numbers, strings, booleans) fails the `typeof`/falsiness check; an
array passes it (its `typeof` is `"object"` and it is truthy) but has no
`action` property; a missing, falsy or non-string `action` raises; an
`action` outside `validActions` raises; otherwise the object is returned
with its `target` and `reason` defaulted by `repairedFields`. -/
def validateResponse (response : JSValue) : Except String JSValue :=
  match response with
  | .obj fields =>
    match getField fields "action" with
    | some (.str a) =>
      if a = "" then Except.error "Missing or invalid \"action\" field"
      else if !(validActions.contains a) then
        Except.error ("Invalid action: " ++ a ++ ". Must be one of: " ++
          String.intercalate ", " validActions)
      else Except.ok (.obj (repairedFields fields))
    | _ => Except.error "Missing or invalid \"action\" field"
  | .arr _ => Except.error "Missing or invalid \"action\" field"
  | _ => Except.error "Response is not a valid object"

/- ----------------------------------------------------------------- -/
/- cleanJsonResponse (src/core/brain.js), over List Char              -/
/- ----------------------------------------------------------------- -/

/-- `p` is a prefix of the second list (Boolean). -/
def startsWithL : List Char → List Char → Bool
  | [], _ => true
  | _ :: _, [] => false
  | p :: ps, c :: cs => p = c && startsWithL ps cs

/-- Drop a single leading newline if present: the `\n?` tail of the two
fence-stripping regexes. -/
def dropNlHead : List Char → List Char
  | [] => []
  | c :: rest => if c = '\n' then rest else c :: rest

/-- The literal part of the regex `/```json\n?/g`. -/
def fenceJson : List Char := ['`', '`', '`', 'j', 's', 'o', 'n']

/-- The literal part of the regex `/```\n?/g`. -/
def fence : List Char := ['`', '`', '`']

/-- Global replacement of `/```json\n?/g` by the empty string: the
left-to-right, non-overlapping scan JavaScript `String.replace` performs. -/
def stripJsonFence : List Char → List Char
  | [] => []
  | c :: rest =>
    if startsWithL fenceJson (c :: rest) then
      stripJsonFence (dropNlHead (rest.drop 6))
    else
      c :: stripJsonFence rest
  termination_by l => l.length
  decreasing_by
    · have h1 : (dropNlHead (rest.drop 6)).length ≤ (rest.drop 6).length := by
        cases rest.drop 6 with
        | nil => simp [dropNlHead]
        | cons d r => simp only [dropNlHead]; split <;> simp
      have h2 : (rest.drop 6).length ≤ rest.length := by
        simp [List.length_drop]
      simp only [List.length_cons]
      omega
    · simp

/-- Global replacement of `/```\n?/g` by the empty string. -/
def stripFence : List Char → List Char
  | [] => []
  | c :: rest =>
    if startsWithL fence (c :: rest) then
      stripFence (dropNlHead (rest.drop 2))
    else
      c :: stripFence rest
  termination_by l => l.length
  decreasing_by
    · have h1 : (dropNlHead (rest.drop 2)).length ≤ (rest.drop 2).length := by
        cases rest.drop 2 with
        | nil => simp [dropNlHead]
        | cons d r => simp only [dropNlHead]; split <;> simp
      have h2 : (rest.drop 2).length ≤ rest.length := by
        simp [List.length_drop]
      simp only [List.length_cons]
      omega
    · simp

/-- Index of the first occurrence of `c` (JavaScript `indexOf`, with
`none` standing for `-1`). -/
def firstIdx (c : Char) : List Char → Option Nat
  | [] => none
  | x :: xs => if x = c then some 0 else (firstIdx c xs).map (· + 1)

/-- Index of the last occurrence of `c` (JavaScript `lastIndexOf`). -/
def lastIdx (c : Char) : List Char → Option Nat
  | [] => none
  | x :: xs =>
    match lastIdx c xs with
    | some n => some (n + 1)
    | none => if x = c then some 0 else none

/-- `if (firstBrace > 0) text = text.substring(firstBrace)`. -/
def sliceFromFirstBrace (l : List Char) : List Char :=
  match firstIdx '{' l with
  | none => l
  | some n => if 0 < n then l.drop n else l

/-- `if (lastBrace !== -1 && lastBrace < text.length - 1)
text = text.substring(0, lastBrace + 1)`. -/
def sliceToLastBrace (l : List Char) : List Char :=
  match lastIdx '}' l with
  | none => l
  | some n => if n + 1 < l.length then l.take (n + 1) else l

/-- The character mapping of `text.replace(/\n/g, ' ')`. -/
def nlChar (c : Char) : Char := if c = '\n' then ' ' else c

/-- `text.replace(/\n/g, ' ')`. -/
def nlToSpace (l : List Char) : List Char :=
  l.map nlChar

/-- The whitespace characters relevant to `String.prototype.trim` in the
texts this bot handles (ASCII whitespace). -/
def isWsChar (c : Char) : Bool :=
  c = ' ' || c = '\n' || c = '\t' || c = '\r'

/-- Left half of `trim`. -/
def trimLeft (l : List Char) : List Char := l.dropWhile isWsChar

/-- Right half of `trim`. -/
def trimRight (l : List Char) : List Char := (l.reverse.dropWhile isWsChar).reverse

/-- `text.trim()`. -/
def jsTrim (l : List Char) : List Char := trimRight (trimLeft l)

/-- `cleanJsonResponse` from `src/core/brain.js`: strip the two fence
patterns, slice from the first `{`, slice to the last `}`, collapse
newlines to spaces, trim. -/
def cleanJsonResponse (l : List Char) : List Char :=
  jsTrim (nlToSpace (sliceToLastBrace (sliceFromFirstBrace (stripFence (stripJsonFence l)))))

/-- Does the list begin with two backticks? -/
def starts2 : List Char → Bool
  | [] => false
  | [_] => false
  | a :: b :: _ => a = '`' && b = '`'

/-- No three consecutive backticks occur in the list: no match of either
fence regex remains. -/
def noTriple : List Char → Bool
  | [] => true
  | c :: rest => if c = '`' && starts2 rest then false else noTriple rest

/-- The first `{` of the list, if any, is at position zero: the
first-brace slice finds nothing to cut. -/
def BraceHeadOk (l : List Char) : Prop :=
  l = [] ∨ (∃ xs, l = '{' :: xs) ∨ '{' ∉ l

/-- The last `}` of the list, if any, is its final character: the
last-brace slice finds nothing to cut. -/
def BraceLastOk (l : List Char) : Prop :=
  '}' ∉ l ∨ ∃ xs, l = xs ++ ['}']

/- ----------------------------------------------------------------- -/
/- think (src/core/brain.js)                                          -/
/- ----------------------------------------------------------------- -/

/-- The observable outcome of the `axios.post` call to the reasoning
service: a transport error (connection refused, timeout, …) carrying the
error message, or a raw textual response. -/
inductive LLMOutcome where
  | transportError (msg : String)
  | response (raw : List Char)

/-- The safe fallback decision `think` returns on any failure. -/
def fallbackDecision (reason : String) : JSValue :=
  .obj [("action", .str "wait"), ("target", .str "idle"), ("reason", .str reason)]

/-- `think` from `src/core/brain.js`, parameterised by the behaviour of
`JSON.parse` (`parse cleaned = none` models a `SyntaxError`).  A transport
error and a validation error are both caught by the outer `try`/`catch`
and turned into the `"LLM error: …"` fallback; a parse error is caught by
the inner `try`/`catch` and turned into its own fallback; otherwise the
validated decision is returned. -/
def think (parse : List Char → Option JSValue) (outcome : LLMOutcome) : JSValue :=
  match outcome with
  | .transportError msg => fallbackDecision ("LLM error: " ++ msg)
  | .response raw =>
    match parse (cleanJsonResponse raw) with
    | none => fallbackDecision "LLM response parsing failed, waiting for next cycle"
    | some decision =>
      match validateResponse decision with
      | .error msg => fallbackDecision ("LLM error: " ++ msg)
      | .ok validated => validated

/- ----------------------------------------------------------------- -/
/- goals.js                                                           -/
/- ----------------------------------------------------------------- -/

/-- One inventory stack as listed by `bot.inventory.items()`. -/
structure Item where
  name : String
  count : Nat

/-- The facts `analyzeInventory` returns. -/
structure InventoryFacts where
  logs : Nat
  planks : Nat
  sticks : Nat
  cobblestone : Nat
  ironOre : Nat
  hasCraftingTable : Bool
  hasWoodenPickaxe : Bool
  hasStonePickaxe : Bool
  logTypes : List String

/-- `sub` occurs as a contiguous substring (JavaScript `includes`). -/
def containsL (sub : List Char) : List Char → Bool
  | [] => sub.isEmpty
  | c :: rest => startsWithL sub (c :: rest) || containsL sub rest

/-- `s.includes(sub)` for the string names of inventory items. -/
def strIncludes (s sub : String) : Bool := containsL sub.toList s.toList

/-- The log-counting `if` block of the item loop of `analyzeInventory`. -/
def logStep (acc : InventoryFacts) (it : Item) : InventoryFacts :=
  if strIncludes it.name "_log" || it.name = "oak_log" || it.name = "birch_log" ||
      it.name = "spruce_log" || it.name = "jungle_log" || it.name = "acacia_log" ||
      it.name = "dark_oak_log" || it.name = "mangrove_log" || it.name = "cherry_log" then
    { acc with
      logs := acc.logs + it.count,
      logTypes := if acc.logTypes.contains it.name then acc.logTypes
        else acc.logTypes ++ [it.name] }
  else acc

/-- The plank-counting `if` block of the item loop. -/
def plankStep (acc : InventoryFacts) (it : Item) : InventoryFacts :=
  if strIncludes it.name "_planks" then { acc with planks := acc.planks + it.count } else acc

/-- The stick-counting `if` block of the item loop. -/
def stickStep (acc : InventoryFacts) (it : Item) : InventoryFacts :=
  if it.name = "stick" then { acc with sticks := acc.sticks + it.count } else acc

/-- The cobblestone-counting `if` block of the item loop. -/
def cobbleStep (acc : InventoryFacts) (it : Item) : InventoryFacts :=
  if it.name = "cobblestone" then { acc with cobblestone := acc.cobblestone + it.count }
  else acc

/-- The iron-counting `if` block of the item loop: `raw_iron` and
`iron_ore` both feed the same counter. -/
def ironStep (acc : InventoryFacts) (it : Item) : InventoryFacts :=
  if it.name = "raw_iron" ∨ it.name = "iron_ore" then
    { acc with ironOre := acc.ironOre + it.count }
  else acc

/-- The crafting-table `if` block of the item loop. -/
def tableStep (acc : InventoryFacts) (it : Item) : InventoryFacts :=
  if it.name = "crafting_table" then { acc with hasCraftingTable := true } else acc

/-- The wooden-pickaxe `if` block of the item loop. -/
def woodPickStep (acc : InventoryFacts) (it : Item) : InventoryFacts :=
  if it.name = "wooden_pickaxe" then { acc with hasWoodenPickaxe := true } else acc

/-- The stone-pickaxe `if` block of the item loop. -/
def stonePickStep (acc : InventoryFacts) (it : Item) : InventoryFacts :=
  if it.name = "stone_pickaxe" then { acc with hasStonePickaxe := true } else acc

/-- One iteration of the `for (const item of items)` loop of
`analyzeInventory`: the eight independent `if` blocks of the source in
order. -/
def inventoryStep (acc : InventoryFacts) (it : Item) : InventoryFacts :=
  stonePickStep (woodPickStep (tableStep (ironStep (cobbleStep (stickStep
    (plankStep (logStep acc it) it) it) it) it) it) it) it

/-- The all-zero facts the counters of `analyzeInventory` start from. -/
def emptyInv : InventoryFacts :=
  { logs := 0, planks := 0, sticks := 0, cobblestone := 0, ironOre := 0,
    hasCraftingTable := false, hasWoodenPickaxe := false, hasStonePickaxe := false,
    logTypes := [] }

/-- `analyzeInventory` from `src/core/goals.js`, as a left fold over the
raw item listing. -/
def analyzeInventory (items : List Item) : InventoryFacts :=
  items.foldl inventoryStep emptyInv

/-- One visible log block of the world, with its distance to the bot. -/
structure LogBlock where
  species : String
  dist : Nat
  deriving DecidableEq

/-- Everything the planner observes through the mineflayer bot: the raw
item listing, the two crafting-table reachability predicates
(`findNearbyCraftingTable` / `findDistantCraftingTable` outcomes), the
block registry `mcData.blocksByName`, and the visible log blocks. -/
structure BotView where
  items : List Item
  nearbyTable : Bool
  distantTable : Bool
  blockRegistry : List String
  logBlocks : List LogBlock

/-- `bot.findBlock({matching: id-of name, maxDistance})` restricted to log
blocks: does some log block of this species lie within the radius? -/
def findBlockVisible (w : BotView) (name : String) (maxDist : Nat) : Bool :=
  w.logBlocks.any (fun b => b.species = name && b.dist ≤ maxDist)

/-- The fixed species list `findNearbyLogType` iterates over, in source
order. -/
def logSearchOrder : List String :=
  ["oak_log", "birch_log", "spruce_log", "jungle_log", "acacia_log",
   "dark_oak_log", "cherry_log", "mangrove_log"]

/-- The `for (const logType of logTypes)` loop of `findNearbyLogType`:
first species of the list that is in the registry and has a block within
32, else the `'oak_log'` default. -/
def findNearbyLogTypeGo (w : BotView) : List String → String
  | [] => "oak_log"
  | t :: rest =>
    if w.blockRegistry.contains t && findBlockVisible w t 32 then t
    else findNearbyLogTypeGo w rest

/-- `findNearbyLogType` from `src/core/goals.js`. -/
def findNearbyLogType (w : BotView) : String :=
  findNearbyLogTypeGo w logSearchOrder

/-- Replace the first occurrence of `pat` by nothing (JavaScript
`String.replace` with a string pattern). -/
def replaceFirst (pat : List Char) : List Char → List Char
  | [] => []
  | c :: rest =>
    if startsWithL pat (c :: rest) then (c :: rest).drop pat.length
    else c :: replaceFirst pat rest

/-- `getPlankTypeFromLogs` from `src/core/goals.js`. -/
def getPlankTypeFromLogs (inv : InventoryFacts) : String :=
  match inv.logTypes with
  | [] => "oak_planks"
  | logType :: _ => String.mk (replaceFirst "_log".toList logType.toList) ++ "_planks"

/-- A planner / reasoning-service decision. -/
structure Decision where
  action : String
  target : String
  reason : String
  deriving DecidableEq

/-- `getPickaxeAction` from `src/core/goals.js`.  The source is a sequence
of guarded early returns; blocks whose inner guards can all fail (steps 5
and 6) are flattened into successive conjuncts, preserving evaluation
order. -/
def getPickaxeAction (inv : InventoryFacts) (nearbyTable : Bool) (w : BotView) : Option Decision :=
  if inv.logs = 0 ∧ inv.planks < 3 then
    some ⟨"mine", findNearbyLogType w, "Need wood for tools"⟩
  else if 0 < inv.logs ∧ inv.planks < 5 then
    some ⟨"craft", getPlankTypeFromLogs inv, "Converting logs to planks"⟩
  else if inv.hasCraftingTable = false ∧ nearbyTable = false ∧ 4 ≤ inv.planks then
    some ⟨"craft", "crafting_table", "Need crafting table for pickaxe"⟩
  else if inv.hasCraftingTable = true ∧ nearbyTable = false then
    some ⟨"place", "crafting_table", "Placing crafting table"⟩
  else if nearbyTable = false ∧ inv.hasCraftingTable = false ∧ w.distantTable = true then
    some ⟨"goto", "crafting_table", "Going to crafting table"⟩
  else if nearbyTable = false ∧ inv.hasCraftingTable = false ∧ inv.planks < 4 then
    some ⟨"mine", findNearbyLogType w, "Need wood for crafting table"⟩
  else if 2 ≤ inv.sticks ∧ 3 ≤ inv.planks ∧ nearbyTable = false ∧ w.distantTable = true then
    some ⟨"goto", "crafting_table", "Walking to crafting table"⟩
  else if 2 ≤ inv.sticks ∧ 3 ≤ inv.planks ∧ nearbyTable = false ∧
      inv.hasCraftingTable = true then
    some ⟨"place", "crafting_table", "Placing table to craft pickaxe"⟩
  else if 2 ≤ inv.sticks ∧ 3 ≤ inv.planks ∧ nearbyTable = false ∧ 4 ≤ inv.planks then
    some ⟨"craft", "crafting_table", "Making table for pickaxe"⟩
  else if nearbyTable = true ∧ inv.sticks < 2 ∧ 2 ≤ inv.planks then
    some ⟨"craft", "stick", "Need sticks for pickaxe"⟩
  else if nearbyTable = true ∧ 2 ≤ inv.sticks ∧ 3 ≤ inv.planks then
    some ⟨"craft", "wooden_pickaxe", "Crafting wooden pickaxe!"⟩
  else if inv.planks < 5 ∨ inv.sticks < 2 then
    some ⟨"mine", findNearbyLogType w, "Need more wood"⟩
  else
    none

/-- `getNextAction` from `src/core/goals.js`.  Goal 4's nested block is
flattened the same way as in `getPickaxeAction`. -/
def getNextAction (w : BotView) : Option Decision :=
  let inv := analyzeInventory w.items
  let nearbyTable := w.nearbyTable
  if inv.hasWoodenPickaxe = false then
    getPickaxeAction inv nearbyTable w
  else if inv.hasWoodenPickaxe = true ∧ inv.cobblestone < 8 then
    some ⟨"mine", "stone", "Need cobblestone for tools"⟩
  else if 3 ≤ inv.cobblestone ∧ inv.sticks < 2 then
    if 2 ≤ inv.planks then some ⟨"craft", "stick", "Need sticks for stone pickaxe"⟩
    else if 0 < inv.logs then
      some ⟨"craft", getPlankTypeFromLogs inv, "Need planks for sticks"⟩
    else some ⟨"mine", findNearbyLogType w, "Need wood for sticks"⟩
  else if 3 ≤ inv.cobblestone ∧ 2 ≤ inv.sticks ∧ inv.hasStonePickaxe = false ∧
      nearbyTable = false ∧ inv.hasCraftingTable = true then
    some ⟨"place", "crafting_table", "Place table for stone pickaxe"⟩
  else if 3 ≤ inv.cobblestone ∧ 2 ≤ inv.sticks ∧ inv.hasStonePickaxe = false ∧
      nearbyTable = false ∧ w.distantTable = true then
    some ⟨"goto", "crafting_table", "Go to crafting table"⟩
  else if 3 ≤ inv.cobblestone ∧ 2 ≤ inv.sticks ∧ inv.hasStonePickaxe = false ∧
      nearbyTable = false ∧ 4 ≤ inv.planks then
    some ⟨"craft", "crafting_table", "Need table for stone pickaxe"⟩
  else if 3 ≤ inv.cobblestone ∧ 2 ≤ inv.sticks ∧ inv.hasStonePickaxe = false ∧
      nearbyTable = true then
    some ⟨"craft", "stone_pickaxe", "Upgrade to stone pickaxe!"⟩
  else if inv.hasStonePickaxe = true ∧ inv.ironOre < 3 then
    some ⟨"mine", "iron_ore", "Need iron for better tools"⟩
  else if inv.hasStonePickaxe = true ∧ inv.cobblestone < 20 then
    some ⟨"mine", "stone", "Gathering cobblestone"⟩
  else
    some ⟨"explore", "random", "Looking for resources"⟩

/- ----------------------------------------------------------------- -/
/- actions.js                                                         -/
/- ----------------------------------------------------------------- -/

/-- The module-level mutable pair of `src/core/actions.js`
(`isBusy`, `currentAction`). -/
structure ExecState where
  isBusy : Bool
  currentAction : Option String

/-- The initial values of the two module-level variables. -/
def idleState : ExecState := { isBusy := false, currentAction := none }

/-- `setBusy(action, busy)` from `src/core/actions.js`. -/
def setBusy (action : Option String) (busy : Bool) : ExecState :=
  { isBusy := busy, currentAction := if busy then action else none }

/-- The outcome a handler's asynchronous body would have: it returns, or
it throws with the given message. -/
inductive HandlerOutcome where
  | ok
  | err (msg : String)

/-- The outcome of the `Promise.race` inside `executeExplore`: movement
finished first, movement rejected first with a message, or the timer won
(its rejection carries the message `'Exploration timeout'`). -/
inductive RaceOutcome where
  | moveCompleted
  | moveFailed (msg : String)
  | timerWon

/-- The message of the timer's rejection in `executeExplore`. -/
def exploreTimeoutMsg : String := "Exploration timeout"

/-- `executeExplore` from `src/core/actions.js`: a rejection whose message
is exactly `'Exploration timeout'` is swallowed and the handler still
returns success; any other rejection is rethrown. -/
def executeExplore (r : RaceOutcome) : HandlerOutcome :=
  match r with
  | .moveCompleted => .ok
  | .timerWon => if exploreTimeoutMsg = exploreTimeoutMsg then .ok else .err exploreTimeoutMsg
  | .moveFailed msg => if msg = exploreTimeoutMsg then .ok else .err msg

/-- The outcomes the world would give each handler of `executeAction` if
it were started on this tick. -/
structure HandlerEnv where
  mine : HandlerOutcome
  craft : HandlerOutcome
  explore : RaceOutcome
  fight : HandlerOutcome
  place : HandlerOutcome
  eat : HandlerOutcome
  chat : HandlerOutcome
  wait : HandlerOutcome
  goto : HandlerOutcome

/-- The `switch (action)` of `executeAction`: dispatch to the handler, or
throw `'Unknown action: …'` on the default branch. -/
def runHandler (env : HandlerEnv) (action : String) : HandlerOutcome :=
  if action = "mine" then env.mine
  else if action = "craft" then env.craft
  else if action = "explore" then executeExplore env.explore
  else if action = "fight" then env.fight
  else if action = "place" then env.place
  else if action = "eat" then env.eat
  else if action = "chat" then env.chat
  else if action = "wait" then env.wait
  else if action = "goto" then env.goto
  else .err ("Unknown action: " ++ action)

/-- The result object `executeAction` resolves with.  The busy-path
literal `{success: false, error: 'Bot is busy'}` has no `action`/`target`
properties, so both are `Option`s. -/
structure ActionResult where
  action : Option String
  target : Option String
  success : Bool
  error : Option String

/-- `executeAction` from `src/core/actions.js`: refuse when busy without
touching the state; otherwise set the busy flag, run the dispatched
handler inside `try`/`catch`, and reset to idle in the `finally` block.
The returned pair is (state after the call, resolved result); the function
is total — no exception escapes. -/
def executeAction (st : ExecState) (env : HandlerEnv) (d : Decision) :
    ExecState × ActionResult :=
  if st.isBusy then
    (st, { action := none, target := none, success := false, error := some "Bot is busy" })
  else
    let result : ActionResult :=
      match runHandler env d.action with
      | .ok => { action := some d.action, target := some d.target,
                 success := true, error := none }
      | .err m => { action := some d.action, target := some d.target,
                    success := false, error := some m }
    (setBusy none false, result)

/- ----------------------------------------------------------------- -/
/- Derived notions and concrete inputs used by the theorems below     -/
/- ----------------------------------------------------------------- -/

/-- The availability test `findNearbyLogType` applies to one species:
registered in `mcData.blocksByName` and a block within 32. -/
def logAvail (w : BotView) (sp : String) : Bool :=
  w.blockRegistry.contains sp && findBlockVisible w sp 32

/-- What one raw item stack contributes to the `ironOre` fact. -/
def ironContribution (it : Item) : Nat :=
  if it.name = "raw_iron" ∨ it.name = "iron_ore" then it.count else 0

/-- A concrete planner input: a bot holding three oak logs, no table
anywhere, an oak log visible at distance 4. -/
def sampleView : BotView :=
  { items := [⟨"oak_log", 3⟩], nearbyTable := false, distantTable := false,
    blockRegistry := logSearchOrder, logBlocks := [⟨"oak_log", 4⟩] }

/-- A world where a birch log sits at distance 5 and an oak log at
distance 30: the nearest visible log is birch. -/
def viewC5 : BotView :=
  { items := [], nearbyTable := false, distantTable := false,
    blockRegistry := logSearchOrder,
    logBlocks := [⟨"birch_log", 5⟩, ⟨"oak_log", 30⟩] }

/-- A bot holding one crafting table and nothing else, with no table
placed anywhere in the world. -/
def viewC6 : BotView :=
  { items := [⟨"crafting_table", 1⟩], nearbyTable := false, distantTable := false,
    blockRegistry := [], logBlocks := [] }

/-- A bot holding one crafting table and five oak planks, with no table
placed anywhere in the world. -/
def viewC6b : BotView :=
  { items := [⟨"crafting_table", 1⟩, ⟨"oak_planks", 5⟩], nearbyTable := false,
    distantTable := false, blockRegistry := [], logBlocks := [] }

/-- A handler environment in which every handler would succeed. -/
def envAllOk : HandlerEnv :=
  { mine := .ok, craft := .ok, explore := .moveCompleted, fight := .ok,
    place := .ok, eat := .ok, chat := .ok, wait := .ok, goto := .ok }

/-- A handler environment in which every handler would fail. -/
def envAllErr : HandlerEnv :=
  { mine := .err "boom", craft := .err "boom", explore := .moveFailed "boom",
    fight := .err "boom", place := .err "boom", eat := .err "boom",
    chat := .err "boom", wait := .err "boom", goto := .err "boom" }

/-- The executor state while an action is in flight. -/
def busyState : ExecState := { isBusy := true, currentAction := some "mine" }

/- ----------------------------------------------------------------- -/
/- Helper lemmas                                                      -/
/- ----------------------------------------------------------------- -/

theorem getField_setField_same (fields : List (String × JSValue)) (k : String) (v : JSValue) :
    getField (setField fields k v) k = some v := by
  induction fields with
  | nil => simp [setField, getField]
  | cons p rest ih =>
    obtain ⟨k2, w⟩ := p
    by_cases h : k2 = k <;> simp [setField, getField, h, ih]

theorem getField_setField_ne (fields : List (String × JSValue)) (k k2 : String) (v : JSValue)
    (h : k2 ≠ k) : getField (setField fields k v) k2 = getField fields k2 := by
  have h2 : ¬k = k2 := fun hh => h hh.symm
  induction fields with
  | nil => simp [setField, getField, h2]
  | cons p rest ih =>
    obtain ⟨k3, w⟩ := p
    by_cases h3 : k3 = k
    · subst h3
      simp [setField, getField, h2]
    · simp [setField, getField, h3, ih]

theorem truthy_eq_true_exists (v : Option JSValue) (h : truthy v = true) :
    ∃ x, v = some x := by
  cases v with
  | none => simp [truthy] at h
  | some x => exact ⟨x, rfl⟩

/- ----------------------------------------------------------------- -/
/- C2: planner determinism                                            -/
/- ----------------------------------------------------------------- -/

/-- C2: the deterministic planner `getNextAction` is a pure function of
its observed inputs (inventory listing, table reachability, visible
logs): two calls on bit-identical observations return identical decisions
(same action, target and reason), or both return the defer value `null`
(`none`). -/
theorem getNextAction_deterministic (w1 w2 : BotView) (h : w1 = w2) :
    getNextAction w1 = getNextAction w2 := by rw [h]

/-- Witness for C2 at a concrete observation. -/
theorem getNextAction_deterministic_witness :
    getNextAction sampleView = getNextAction sampleView :=
  getNextAction_deterministic sampleView sampleView rfl

/- ----------------------------------------------------------------- -/
/- C7: single-flight and reset to idle                                -/
/- ----------------------------------------------------------------- -/

/-- C7: while the busy flag is set, `executeAction` returns the failed
Busy result, leaves the executor state untouched, and does not start any
handler (its answer does not depend on the handler environment); after a
completed action, successful or failed, the state is reset to idle (busy
false, current action cleared). -/
theorem executeAction_single_flight :
    (∀ (st : ExecState) (env env2 : HandlerEnv) (d : Decision), st.isBusy = true →
      executeAction st env d =
        (st, { action := none, target := none, success := false,
               error := some "Bot is busy" }) ∧
      executeAction st env d = executeAction st env2 d) ∧
    (∀ (st : ExecState) (env : HandlerEnv) (d : Decision), st.isBusy = false →
      (executeAction st env d).1 = idleState) := by
  constructor
  · intro st env env2 d h
    constructor <;> simp [executeAction, h]
  · intro st env d h
    simp [executeAction, h, setBusy, idleState]

/-- Witness for C7: a busy executor refuses a craft and is unaffected;
an idle executor ends idle again. -/
theorem executeAction_single_flight_witness :
    (executeAction busyState envAllOk ⟨"craft", "stick", "r"⟩ =
      (busyState, { action := none, target := none, success := false,
                    error := some "Bot is busy" }) ∧
     executeAction busyState envAllOk ⟨"craft", "stick", "r"⟩ =
      executeAction busyState envAllErr ⟨"craft", "stick", "r"⟩) ∧
    (executeAction idleState envAllOk ⟨"craft", "stick", "r"⟩).1 = idleState :=
  ⟨executeAction_single_flight.1 busyState envAllOk envAllErr ⟨"craft", "stick", "r"⟩ rfl,
   executeAction_single_flight.2 idleState envAllOk ⟨"craft", "stick", "r"⟩ rfl⟩

/- ----------------------------------------------------------------- -/
/- C8: timeout classification                                         -/
/- ----------------------------------------------------------------- -/

/-- C8: when the movement timer wins the race during an explore action
the result is `success: true`; a timeout thrown during a craft, mine or
goto action yields `success: false` with the timeout message in the
`error` field. -/
theorem executeAction_timeout_semantics :
    (∀ (st : ExecState) (env : HandlerEnv) (d : Decision),
      st.isBusy = false → d.action = "explore" → env.explore = .timerWon →
      (executeAction st env d).2.success = true) ∧
    (∀ (st : ExecState) (env : HandlerEnv) (d : Decision) (msg : String),
      st.isBusy = false →
      ((d.action = "mine" ∧ env.mine = .err msg) ∨
       (d.action = "craft" ∧ env.craft = .err msg) ∨
       (d.action = "goto" ∧ env.goto = .err msg)) →
      (executeAction st env d).2.success = false ∧
      (executeAction st env d).2.error = some msg) := by
  constructor
  · intro st env d hb ha he
    simp [executeAction, hb, runHandler, ha, he, executeExplore]
  · intro st env d msg hb hcase
    rcases hcase with ⟨ha, he⟩ | ⟨ha, he⟩ | ⟨ha, he⟩ <;>
      simp [executeAction, hb, runHandler, ha, he]

/-- Witness for C8: a timed-out exploration succeeds; a timed-out mine
fails with the timeout message. -/
theorem executeAction_timeout_semantics_witness :
    (executeAction idleState { envAllOk with explore := .timerWon }
      ⟨"explore", "random", "r"⟩).2.success = true ∧
    ((executeAction idleState { envAllOk with mine := .err "Collect timeout" }
      ⟨"mine", "oak_log", "r"⟩).2.success = false ∧
     (executeAction idleState { envAllOk with mine := .err "Collect timeout" }
      ⟨"mine", "oak_log", "r"⟩).2.error = some "Collect timeout") :=
  ⟨executeAction_timeout_semantics.1 idleState { envAllOk with explore := .timerWon }
    ⟨"explore", "random", "r"⟩ rfl rfl rfl,
   executeAction_timeout_semantics.2 idleState { envAllOk with mine := .err "Collect timeout" }
    ⟨"mine", "oak_log", "r"⟩ "Collect timeout" rfl (Or.inl ⟨rfl, rfl⟩)⟩

/- ----------------------------------------------------------------- -/
/- C9: result wire shape                                              -/
/- ----------------------------------------------------------------- -/

/-- C9 counterexample: in the busy case the result object is the literal
`{success: false, error: 'Bot is busy'}`, whose `action` property is
absent — not equal to the decision's action as the claim states. -/
theorem executeAction_busy_result_lacks_action :
    (executeAction busyState envAllOk ⟨"craft", "stick", "r"⟩).2.action = none ∧
    (Decision.mk "craft" "stick" "r").action = "craft" := by
  constructor
  · simp [executeAction, busyState]
  · rfl

/-- C9 amended: `executeAction` always resolves (it is total) to a result
of shape `{action?, target?, success, error?}`; when the executor is not
busy — including for an unknown action kind — `action` and `target` equal
the decision's fields and a successful result carries no error; when it
is busy, the result is the field-less Busy failure. -/
theorem executeAction_result_shape :
    (∀ (st : ExecState) (env : HandlerEnv) (d : Decision), st.isBusy = false →
      (executeAction st env d).2.action = some d.action ∧
      (executeAction st env d).2.target = some d.target ∧
      ((executeAction st env d).2.success = true → (executeAction st env d).2.error = none)) ∧
    (∀ (st : ExecState) (env : HandlerEnv) (d : Decision), st.isBusy = true →
      (executeAction st env d).2.action = none ∧
      (executeAction st env d).2.target = none ∧
      (executeAction st env d).2.success = false ∧
      (executeAction st env d).2.error = some "Bot is busy") := by
  constructor
  · intro st env d h
    simp only [executeAction, h, Bool.false_eq_true, if_false]
    cases runHandler env d.action <;> simp
  · intro st env d h
    simp [executeAction, h]

/-- Witness for C9's amended theorem: an unknown action kind still yields
a result carrying the decision's fields; a busy executor yields the
field-less Busy failure. -/
theorem executeAction_result_shape_witness :
    ((executeAction idleState envAllOk ⟨"dance", "floor", "r"⟩).2.action = some "dance" ∧
     (executeAction idleState envAllOk ⟨"dance", "floor", "r"⟩).2.target = some "floor" ∧
     ((executeAction idleState envAllOk ⟨"dance", "floor", "r"⟩).2.success = true →
      (executeAction idleState envAllOk ⟨"dance", "floor", "r"⟩).2.error = none)) ∧
    ((executeAction busyState envAllOk ⟨"mine", "stone", "r"⟩).2.action = none ∧
     (executeAction busyState envAllOk ⟨"mine", "stone", "r"⟩).2.target = none ∧
     (executeAction busyState envAllOk ⟨"mine", "stone", "r"⟩).2.success = false ∧
     (executeAction busyState envAllOk ⟨"mine", "stone", "r"⟩).2.error = some "Bot is busy") :=
  ⟨executeAction_result_shape.1 idleState envAllOk ⟨"dance", "floor", "r"⟩ rfl,
   executeAction_result_shape.2 busyState envAllOk ⟨"mine", "stone", "r"⟩ rfl⟩

/- ----------------------------------------------------------------- -/
/- C4: iron counters                                                  -/
/- ----------------------------------------------------------------- -/

theorem logStep_ironOre (acc : InventoryFacts) (it : Item) :
    (logStep acc it).ironOre = acc.ironOre := by
  unfold logStep; split <;> rfl

theorem plankStep_ironOre (acc : InventoryFacts) (it : Item) :
    (plankStep acc it).ironOre = acc.ironOre := by
  unfold plankStep; split <;> rfl

theorem stickStep_ironOre (acc : InventoryFacts) (it : Item) :
    (stickStep acc it).ironOre = acc.ironOre := by
  unfold stickStep; split <;> rfl

theorem cobbleStep_ironOre (acc : InventoryFacts) (it : Item) :
    (cobbleStep acc it).ironOre = acc.ironOre := by
  unfold cobbleStep; split <;> rfl

theorem tableStep_ironOre (acc : InventoryFacts) (it : Item) :
    (tableStep acc it).ironOre = acc.ironOre := by
  unfold tableStep; split <;> rfl

theorem woodPickStep_ironOre (acc : InventoryFacts) (it : Item) :
    (woodPickStep acc it).ironOre = acc.ironOre := by
  unfold woodPickStep; split <;> rfl

theorem stonePickStep_ironOre (acc : InventoryFacts) (it : Item) :
    (stonePickStep acc it).ironOre = acc.ironOre := by
  unfold stonePickStep; split <;> rfl

theorem ironStep_ironOre (acc : InventoryFacts) (it : Item) :
    (ironStep acc it).ironOre = acc.ironOre + ironContribution it := by
  unfold ironStep ironContribution
  split_ifs <;> simp

theorem inventoryStep_ironOre (acc : InventoryFacts) (it : Item) :
    (inventoryStep acc it).ironOre = acc.ironOre + ironContribution it := by
  simp only [inventoryStep, stonePickStep_ironOre, woodPickStep_ironOre, tableStep_ironOre,
    ironStep_ironOre, cobbleStep_ironOre, stickStep_ironOre, plankStep_ironOre, logStep_ironOre]

theorem foldl_inventoryStep_ironOre (items : List Item) (acc : InventoryFacts) :
    (List.foldl inventoryStep acc items).ironOre =
      acc.ironOre + (items.map ironContribution).sum := by
  induction items generalizing acc with
  | nil => simp
  | cons it rest ih =>
    simp [List.foldl, ih, inventoryStep_ironOre, Nat.add_assoc]

/-- C4 counterexample: with two iron-ore blocks and three raw-iron items
in the listing, the single `ironOre` fact fed to the planner is the
merged sum `2 + 3` of both item names — the analyzer does not keep two
independent counters. -/
theorem analyzeInventory_merges_iron :
    (analyzeInventory [⟨"iron_ore", 2⟩, ⟨"raw_iron", 3⟩]).ironOre = 2 + 3 := by
  decide

/-- C4 amended: `analyzeInventory` accumulates the counts of items named
`raw_iron` and of items named `iron_ore` into the one `ironOre` fact: the
fact is exactly the sum of both item names' counts over the listing. -/
theorem analyzeInventory_ironOre_merged_sum (items : List Item) :
    (analyzeInventory items).ironOre = (items.map ironContribution).sum := by
  simp [analyzeInventory, foldl_inventoryStep_ironOre, emptyInv]

/- ----------------------------------------------------------------- -/
/- C5: log species selection                                          -/
/- ----------------------------------------------------------------- -/

/-- C5 counterexample: in `viewC5` the unique nearest visible log block
is the birch log at distance 5 (the oak log sits at distance 30), yet
`findNearbyLogType` answers `oak_log`, the first species of its fixed
list that has any visible block. -/
theorem findNearbyLogType_not_nearest :
    findNearbyLogType viewC5 = "oak_log" ∧
    (∃ b ∈ viewC5.logBlocks, b.species = "birch_log" ∧ b.dist ≤ 32 ∧
      ∀ b2 ∈ viewC5.logBlocks, b2.species ≠ "birch_log" → b.dist < b2.dist) := by
  refine ⟨by decide, ⟨⟨"birch_log", 5⟩, by decide, rfl, by decide, by decide⟩⟩

theorem findNearbyLogTypeGo_none (w : BotView) (l : List String)
    (h : ∀ sp ∈ l, logAvail w sp = false) : findNearbyLogTypeGo w l = "oak_log" := by
  induction l with
  | nil => rfl
  | cons t rest ih =>
    have ht : (w.blockRegistry.contains t && findBlockVisible w t 32) = false := by
      have := h t (by simp)
      simpa [logAvail] using this
    simp only [findNearbyLogTypeGo, ht, Bool.false_eq_true, if_false]
    exact ih (fun sp hs => h sp (by simp [hs]))

theorem findNearbyLogTypeGo_first (w : BotView) (pre : List String) (sp : String)
    (post : List String) (hsp : logAvail w sp = true)
    (hpre : ∀ sp2 ∈ pre, logAvail w sp2 = false) :
    findNearbyLogTypeGo w (pre ++ sp :: post) = sp := by
  induction pre with
  | nil =>
    have hsp2 : (w.blockRegistry.contains sp && findBlockVisible w sp 32) = true := by
      simpa [logAvail] using hsp
    simp only [List.nil_append, findNearbyLogTypeGo, hsp2, if_true]
  | cons t rest ih =>
    have ht : (w.blockRegistry.contains t && findBlockVisible w t 32) = false := by
      have := hpre t (by simp)
      simpa [logAvail] using this
    simp only [List.cons_append, findNearbyLogTypeGo, ht, Bool.false_eq_true, if_false]
    exact ih (fun sp2 hs => hpre sp2 (by simp [hs]))

/-- C5 amended: the species `findNearbyLogType` targets is the first
entry of its fixed species list (`oak_log`, `birch_log`, …) that is
registered and has a visible block within 32 — the choice follows the
fixed list order, not nearest-first across species — and when no entry
of the list is available it falls back to the canonical `oak_log`. -/
theorem findNearbyLogType_fixed_list_order (w : BotView) :
    ((∀ sp ∈ logSearchOrder, logAvail w sp = false) →
      findNearbyLogType w = "oak_log") ∧
    (∀ (pre : List String) (sp : String) (post : List String),
      logSearchOrder = pre ++ sp :: post → logAvail w sp = true →
      (∀ sp2 ∈ pre, logAvail w sp2 = false) → findNearbyLogType w = sp) := by
  constructor
  · intro h
    exact findNearbyLogTypeGo_none w logSearchOrder h
  · intro pre sp post hsplit hsp hpre
    unfold findNearbyLogType
    rw [hsplit]
    exact findNearbyLogTypeGo_first w pre sp post hsp hpre

/-- Witness for C5's amended theorem: in `viewC5`, `birch_log` is the
first available species after `oak_log`, and removing nothing from the
front, `oak_log` itself is available and is returned. -/
theorem findNearbyLogType_fixed_list_order_witness :
    findNearbyLogType viewC5 = "oak_log" :=
  (findNearbyLogType_fixed_list_order viewC5).2 []
    "oak_log"
    ["birch_log", "spruce_log", "jungle_log", "acacia_log", "dark_oak_log",
     "cherry_log", "mangrove_log"]
    (by decide) (by decide) (by decide)

/- ----------------------------------------------------------------- -/
/- C1: validateResponse acceptance, rejection and defaults            -/
/- ----------------------------------------------------------------- -/

theorem targetRepaired_key (fields : List (String × JSValue)) (k : String)
    (hk : k ≠ "target") : getField (targetRepaired fields) k = getField fields k := by
  unfold targetRepaired
  split
  · exact getField_setField_ne fields "target" k _ hk
  · rfl

theorem reasonRepaired_key (fields : List (String × JSValue)) (k : String)
    (hk : k ≠ "reason") : getField (reasonRepaired fields) k = getField fields k := by
  unfold reasonRepaired
  split
  · rfl
  · exact getField_setField_ne fields "reason" k _ hk

theorem repairedFields_key (fields : List (String × JSValue)) (k : String)
    (hk1 : k ≠ "target") (hk2 : k ≠ "reason") :
    getField (repairedFields fields) k = getField fields k := by
  unfold repairedFields
  rw [reasonRepaired_key _ _ hk2, targetRepaired_key _ _ hk1]

theorem repairedFields_target_default (fields : List (String × JSValue))
    (h : (getField fields "target").isNone = true) :
    getField (repairedFields fields) "target" = some (.str "") := by
  unfold repairedFields
  rw [reasonRepaired_key _ _ (by decide)]
  unfold targetRepaired
  rw [if_pos h]
  exact getField_setField_same fields "target" _

theorem repairedFields_target_some (fields : List (String × JSValue)) :
    ∃ tv, getField (repairedFields fields) "target" = some tv := by
  cases h : (getField fields "target").isNone with
  | true => exact ⟨.str "", repairedFields_target_default fields h⟩
  | false =>
    cases hv : getField fields "target" with
    | none => rw [hv] at h; simp at h
    | some tv =>
      refine ⟨tv, ?_⟩
      unfold repairedFields
      rw [reasonRepaired_key _ _ (by decide)]
      unfold targetRepaired
      rw [h]
      simpa using hv

theorem repairedFields_reason_default (fields : List (String × JSValue))
    (h : truthy (getField fields "reason") = false) :
    getField (repairedFields fields) "reason" = some (.str "No reason provided") := by
  unfold repairedFields reasonRepaired
  rw [targetRepaired_key _ _ (by decide), h]
  simp only [Bool.false_eq_true, if_false]
  exact getField_setField_same _ "reason" _

theorem repairedFields_reason_some (fields : List (String × JSValue)) :
    ∃ rv, getField (repairedFields fields) "reason" = some rv := by
  unfold repairedFields reasonRepaired
  split
  · next h => exact truthy_eq_true_exists _ h
  · exact ⟨.str "No reason provided", getField_setField_same _ "reason" _⟩

theorem validActions_mem_ne_empty (a : String) (h : a ∈ validActions) : a ≠ "" := by
  fin_cases h <;> decide

/-- C1 counterexample: the source's `validActions` has no `goto` entry,
so a response whose action is the enum member `goto` named by the spec is
rejected with a validation error instead of being accepted. -/
theorem validateResponse_rejects_goto :
    validateResponse (.obj [("action", .str "goto"), ("target", .str "crafting_table"),
      ("reason", .str "walk to the table")]) = .error
        "Invalid action: goto. Must be one of: mine, craft, place, explore, fight, eat, chat, wait" := by
  rfl

/-- C1 amended: `validateResponse` accepts exactly the actions of the
source's eight-element enum (`mine`, `craft`, `place`, `explore`,
`fight`, `eat`, `chat`, `wait` — without `goto`): a string action in that
list is accepted, with a missing target defaulted to the empty string and
a falsy reason defaulted to the placeholder, and a string action outside
that list raises a validation error. -/
theorem validateResponse_enum_and_defaults :
    (∀ (fields : List (String × JSValue)) (a : String),
      getField fields "action" = some (.str a) → a ∈ validActions →
      ∃ out, validateResponse (.obj fields) = .ok (.obj out) ∧
        getField out "action" = some (.str a) ∧
        ((getField fields "target").isNone = true →
          getField out "target" = some (.str "")) ∧
        (truthy (getField fields "reason") = false →
          getField out "reason" = some (.str "No reason provided"))) ∧
    (∀ (fields : List (String × JSValue)) (a : String),
      getField fields "action" = some (.str a) → a ∉ validActions →
      ∃ msg, validateResponse (.obj fields) = .error msg) := by
  constructor
  · intro fields a hact hmem
    have hne : a ≠ "" := validActions_mem_ne_empty a hmem
    have hcont : validActions.contains a = true := by simpa using hmem
    refine ⟨repairedFields fields, ?_, ?_, ?_, ?_⟩
    · simp only [validateResponse, hact]
      rw [if_neg hne, hcont]
      rfl
    · rw [repairedFields_key fields "action" (by decide) (by decide)]
      exact hact
    · exact fun h => repairedFields_target_default fields h
    · exact fun h => repairedFields_reason_default fields h
  · intro fields a hact hmem
    by_cases hne : a = ""
    · refine ⟨"Missing or invalid \"action\" field", ?_⟩
      simp only [validateResponse, hact]
      rw [if_pos hne]
    · refine ⟨"Invalid action: " ++ a ++ ". Must be one of: " ++
        String.intercalate ", " validActions, ?_⟩
      have hcont : validActions.contains a = false := by simpa using hmem
      simp only [validateResponse, hact]
      rw [if_neg hne, hcont]
      rfl

/-- Witness for C1's amended theorem: a bare `mine` response (no target,
no reason) is accepted with both defaults applied; a `dance` response is
rejected. -/
theorem validateResponse_enum_and_defaults_witness :
    (∃ out, validateResponse (.obj [("action", JSValue.str "mine")]) = .ok (.obj out) ∧
      getField out "action" = some (.str "mine") ∧
      ((getField [("action", JSValue.str "mine")] "target").isNone = true →
        getField out "target" = some (.str "")) ∧
      (truthy (getField [("action", JSValue.str "mine")] "reason") = false →
        getField out "reason" = some (.str "No reason provided"))) ∧
    (∃ msg, validateResponse (.obj [("action", JSValue.str "dance")]) = .error msg) :=
  ⟨validateResponse_enum_and_defaults.1 [("action", JSValue.str "mine")] "mine" rfl
    (by decide),
   validateResponse_enum_and_defaults.2 [("action", JSValue.str "dance")] "dance" rfl
    (by decide)⟩

/- ----------------------------------------------------------------- -/
/- C3: the arbiter never raises and falls back safely                 -/
/- ----------------------------------------------------------------- -/

theorem validateResponse_ok_shape (v d : JSValue) (h : validateResponse v = .ok d) :
    ∃ out a, d = .obj out ∧ getField out "action" = some (.str a) ∧
      validActions.contains a = true ∧
      (∃ tv, getField out "target" = some tv) ∧
      (∃ rv, getField out "reason" = some rv) := by
  cases v with
  | obj fields =>
    simp only [validateResponse] at h
    cases hact : getField fields "action" with
    | none => rw [hact] at h; exact absurd h (by simp)
    | some av =>
      rw [hact] at h
      cases av with
      | str a =>
        replace h : (if a = "" then Except.error "Missing or invalid \"action\" field"
            else if (!validActions.contains a) = true then
              Except.error ("Invalid action: " ++ a ++ ". Must be one of: " ++
                String.intercalate ", " validActions)
            else Except.ok (JSValue.obj (repairedFields fields))) = Except.ok d := h
        by_cases hne : a = ""
        · rw [if_pos hne] at h; exact absurd h (by simp)
        · rw [if_neg hne] at h
          cases hcont : validActions.contains a with
          | false => rw [hcont] at h; exact absurd h (by simp)
          | true =>
            rw [hcont] at h
            simp only [Bool.not_true, Bool.false_eq_true, if_false] at h
            obtain rfl : JSValue.obj (repairedFields fields) = d := by
              simpa using h
            refine ⟨repairedFields fields, a, rfl, ?_, hcont,
              repairedFields_target_some fields, repairedFields_reason_some fields⟩
            rw [repairedFields_key fields "action" (by decide) (by decide)]
            exact hact
      | null => exact absurd h (by simp)
      | bool b => exact absurd h (by simp)
      | num n => exact absurd h (by simp)
      | arr es => exact absurd h (by simp)
      | obj fs => exact absurd h (by simp)
  | null => exact absurd h (by simp [validateResponse])
  | bool b => exact absurd h (by simp [validateResponse])
  | num n => exact absurd h (by simp [validateResponse])
  | str s => exact absurd h (by simp [validateResponse])
  | arr es => exact absurd h (by simp [validateResponse])

theorem fallbackDecision_shape (reason : String) :
    ∃ fs, fallbackDecision reason = .obj fs ∧
      (∃ a, getField fs "action" = some (.str a) ∧ validActions.contains a = true) ∧
      (∃ tv, getField fs "target" = some tv) ∧
      (∃ rv, getField fs "reason" = some rv) := by
  refine ⟨_, rfl, ⟨"wait", ?_, by decide⟩, ⟨.str "idle", ?_⟩, ⟨.str reason, ?_⟩⟩ <;> rfl

/-- C3: whatever the reasoning service does — transport failure,
unparseable response text, or a parsed object failing validation — the
arbiter `think` resolves to a well-formed decision object carrying
`action` (a member of the action enum), `target` and `reason`; on each of
the three failure outcomes it is the safe fallback
`{action: wait, target: idle, reason: diagnostic}`; totality of the
embedding reflects that no exception escapes `think`. -/
theorem think_never_raises :
    (∀ (parse : List Char → Option JSValue) (o : LLMOutcome),
      ∃ fs, think parse o = .obj fs ∧
        (∃ a, getField fs "action" = some (.str a) ∧ validActions.contains a = true) ∧
        (∃ tv, getField fs "target" = some tv) ∧
        (∃ rv, getField fs "reason" = some rv)) ∧
    (∀ (parse : List Char → Option JSValue) (msg : String),
      think parse (.transportError msg) = fallbackDecision ("LLM error: " ++ msg)) ∧
    (∀ (parse : List Char → Option JSValue) (raw : List Char),
      parse (cleanJsonResponse raw) = none →
      think parse (.response raw) =
        fallbackDecision "LLM response parsing failed, waiting for next cycle") ∧
    (∀ (parse : List Char → Option JSValue) (raw : List Char) (v : JSValue) (msg : String),
      parse (cleanJsonResponse raw) = some v → validateResponse v = .error msg →
      think parse (.response raw) = fallbackDecision ("LLM error: " ++ msg)) := by
  refine ⟨?_, ?_, ?_, ?_⟩
  · intro parse o
    cases o with
    | transportError msg => exact fallbackDecision_shape _
    | response raw =>
      cases hp : parse (cleanJsonResponse raw) with
      | none =>
        have heq : think parse (.response raw) =
            fallbackDecision "LLM response parsing failed, waiting for next cycle" := by
          simp only [think, hp]
        rw [heq]
        exact fallbackDecision_shape _
      | some v =>
        cases hv : validateResponse v with
        | error msg =>
          have heq : think parse (.response raw) =
              fallbackDecision ("LLM error: " ++ msg) := by
            simp only [think, hp, hv]
          rw [heq]
          exact fallbackDecision_shape _
        | ok d =>
          have heq : think parse (.response raw) = d := by
            simp only [think, hp, hv]
          rw [heq]
          obtain ⟨out, a, rfl, hact, hcont, htv, hrv⟩ := validateResponse_ok_shape v d hv
          exact ⟨out, rfl, ⟨a, hact, hcont⟩, htv, hrv⟩
  · intro parse msg
    rfl
  · intro parse raw hp
    simp only [think, hp]
  · intro parse raw v msg hp hv
    simp only [think, hp, hv]

/-- Witness for C3 at concrete outcomes: a refused connection, an
unparseable response, and a parsed object with the out-of-enum action
`goto` all produce the safe fallback, and the result is well-formed. -/
theorem think_never_raises_witness :
    (∃ fs, think (fun _ => none) (.transportError "connect ECONNREFUSED") = .obj fs ∧
      (∃ a, getField fs "action" = some (.str a) ∧ validActions.contains a = true) ∧
      (∃ tv, getField fs "target" = some tv) ∧
      (∃ rv, getField fs "reason" = some rv)) ∧
    think (fun _ => none) (.transportError "connect ECONNREFUSED") =
      fallbackDecision ("LLM error: " ++ "connect ECONNREFUSED") ∧
    think (fun _ => none) (.response "this is not json".toList) =
      fallbackDecision "LLM response parsing failed, waiting for next cycle" ∧
    think (fun _ => some (.obj [("action", JSValue.str "goto")]))
        (.response "x".toList) =
      fallbackDecision ("LLM error: " ++
        "Invalid action: goto. Must be one of: mine, craft, place, explore, fight, eat, chat, wait") :=
  ⟨think_never_raises.1 (fun _ => none) (.transportError "connect ECONNREFUSED"),
   think_never_raises.2.1 (fun _ => none) "connect ECONNREFUSED",
   think_never_raises.2.2.1 (fun _ => none) "this is not json".toList rfl,
   think_never_raises.2.2.2 (fun _ => some (.obj [("action", JSValue.str "goto")]))
     "x".toList (.obj [("action", JSValue.str "goto")])
     "Invalid action: goto. Must be one of: mine, craft, place, explore, fight, eat, chat, wait"
     rfl rfl⟩

/- ----------------------------------------------------------------- -/
/- C6: held crafting table is placed, never re-crafted                -/
/- ----------------------------------------------------------------- -/

theorem getPlankTypeFromLogs_ne_table (inv : InventoryFacts) :
    getPlankTypeFromLogs inv ≠ "crafting_table" := by
  unfold getPlankTypeFromLogs
  cases inv.logTypes with
  | nil => decide
  | cons t rest =>
    show (String.mk (replaceFirst "_log".toList t.toList) ++ "_planks") ≠ "crafting_table"
    intro h
    have hd : ((String.mk (replaceFirst "_log".toList t.toList)) ++ "_planks").data
        = "crafting_table".data := by rw [h]
    rw [String.data_append] at hd
    have hlast := congrArg List.getLast? hd
    rw [List.getLast?_append_of_ne_nil] at hlast
    · revert hlast; decide
    · decide

theorem getPickaxeAction_never_recraft (inv : InventoryFacts) (nt : Bool) (w : BotView)
    (d : Decision) (hct : inv.hasCraftingTable = true)
    (h : getPickaxeAction inv nt w = some d) :
    ¬(d.action = "craft" ∧ d.target = "crafting_table") := by
  unfold getPickaxeAction at h
  by_cases c1 : inv.logs = 0 ∧ inv.planks < 3
  · rw [if_pos c1] at h; cases h; simp
  rw [if_neg c1] at h
  by_cases c2 : 0 < inv.logs ∧ inv.planks < 5
  · rw [if_pos c2] at h; cases h
    rintro ⟨ha, ht⟩
    exact getPlankTypeFromLogs_ne_table _ ht
  rw [if_neg c2] at h
  by_cases c3 : inv.hasCraftingTable = false ∧ nt = false ∧ 4 ≤ inv.planks
  · rw [c3.1] at hct; exact absurd hct (by decide)
  rw [if_neg c3] at h
  by_cases c4 : inv.hasCraftingTable = true ∧ nt = false
  · rw [if_pos c4] at h; cases h; simp
  rw [if_neg c4] at h
  by_cases c5 : nt = false ∧ inv.hasCraftingTable = false ∧ w.distantTable = true
  · rw [if_pos c5] at h; cases h; simp
  rw [if_neg c5] at h
  by_cases c6 : nt = false ∧ inv.hasCraftingTable = false ∧ inv.planks < 4
  · rw [if_pos c6] at h; cases h; simp
  rw [if_neg c6] at h
  by_cases c7 : 2 ≤ inv.sticks ∧ 3 ≤ inv.planks ∧ nt = false ∧ w.distantTable = true
  · rw [if_pos c7] at h; cases h; simp
  rw [if_neg c7] at h
  by_cases c8 : 2 ≤ inv.sticks ∧ 3 ≤ inv.planks ∧ nt = false ∧ inv.hasCraftingTable = true
  · rw [if_pos c8] at h; cases h; simp
  rw [if_neg c8] at h
  by_cases c9 : 2 ≤ inv.sticks ∧ 3 ≤ inv.planks ∧ nt = false ∧ 4 ≤ inv.planks
  · exact absurd ⟨c9.1, c9.2.1, c9.2.2.1, hct⟩ c8
  rw [if_neg c9] at h
  by_cases c10 : nt = true ∧ inv.sticks < 2 ∧ 2 ≤ inv.planks
  · rw [if_pos c10] at h; cases h; simp
  rw [if_neg c10] at h
  by_cases c11 : nt = true ∧ 2 ≤ inv.sticks ∧ 3 ≤ inv.planks
  · rw [if_pos c11] at h; cases h; simp
  rw [if_neg c11] at h
  by_cases c12 : inv.planks < 5 ∨ inv.sticks < 2
  · rw [if_pos c12] at h; cases h; simp
  rw [if_neg c12] at h
  exact absurd h (by simp)

/-- C6 counterexample: with only a crafting table in the inventory
(`hasCraftingTableItem` true) and no station reachable, the planner does
not return the place decision as the claim states for every such facts
value: with no wood at all it returns a mine-wood decision. -/
theorem getNextAction_table_held_but_mines :
    (analyzeInventory viewC6.items).hasCraftingTable = true ∧
    viewC6.nearbyTable = false ∧
    getNextAction viewC6 = some ⟨"mine", "oak_log", "Need wood for tools"⟩ := by
  refine ⟨by decide, rfl, by decide⟩

/-- C6 amended: when the bot holds a crafting-table item, has no wooden
pickaxe, no station is reachable-near and the wood-gathering steps do not
fire (it is not out of wood: not `logs = 0 ∧ planks < 3` and not
`logs > 0 ∧ planks < 5`), the planner places the held table; and
whenever the bot holds a crafting-table item the planner never decides to
craft another `crafting_table`, whatever the rest of the state. -/
theorem getNextAction_place_held_table :
    (∀ w : BotView,
      (analyzeInventory w.items).hasCraftingTable = true →
      w.nearbyTable = false →
      (analyzeInventory w.items).hasWoodenPickaxe = false →
      ¬((analyzeInventory w.items).logs = 0 ∧ (analyzeInventory w.items).planks < 3) →
      ¬(0 < (analyzeInventory w.items).logs ∧ (analyzeInventory w.items).planks < 5) →
      getNextAction w = some ⟨"place", "crafting_table", "Placing crafting table"⟩) ∧
    (∀ (w : BotView) (d : Decision),
      (analyzeInventory w.items).hasCraftingTable = true →
      getNextAction w = some d →
      ¬(d.action = "craft" ∧ d.target = "crafting_table")) := by
  constructor
  · intro w hct hnt hwp h1 h2
    simp only [getNextAction]
    rw [if_pos hwp]
    simp only [getPickaxeAction]
    rw [if_neg h1, if_neg h2, if_neg (by simp [hct]), if_pos ⟨hct, hnt⟩]
  · intro w d hct hmain
    simp only [getNextAction] at hmain
    set inv := analyzeInventory w.items with hinv
    by_cases g1 : inv.hasWoodenPickaxe = false
    · rw [if_pos g1] at hmain
      exact getPickaxeAction_never_recraft inv w.nearbyTable w d hct hmain
    rw [if_neg g1] at hmain
    by_cases g2 : inv.hasWoodenPickaxe = true ∧ inv.cobblestone < 8
    · rw [if_pos g2] at hmain; cases hmain; simp
    rw [if_neg g2] at hmain
    by_cases g3 : 3 ≤ inv.cobblestone ∧ inv.sticks < 2
    · rw [if_pos g3] at hmain
      by_cases g3a : 2 ≤ inv.planks
      · rw [if_pos g3a] at hmain; cases hmain; simp
      rw [if_neg g3a] at hmain
      by_cases g3b : 0 < inv.logs
      · rw [if_pos g3b] at hmain; cases hmain
        rintro ⟨ha, ht⟩
        exact getPlankTypeFromLogs_ne_table _ ht
      rw [if_neg g3b] at hmain; cases hmain; simp
    rw [if_neg g3] at hmain
    by_cases g4a : 3 ≤ inv.cobblestone ∧ 2 ≤ inv.sticks ∧ inv.hasStonePickaxe = false ∧
        w.nearbyTable = false ∧ inv.hasCraftingTable = true
    · rw [if_pos g4a] at hmain; cases hmain; simp
    rw [if_neg g4a] at hmain
    by_cases g4b : 3 ≤ inv.cobblestone ∧ 2 ≤ inv.sticks ∧ inv.hasStonePickaxe = false ∧
        w.nearbyTable = false ∧ w.distantTable = true
    · rw [if_pos g4b] at hmain; cases hmain; simp
    rw [if_neg g4b] at hmain
    by_cases g4c : 3 ≤ inv.cobblestone ∧ 2 ≤ inv.sticks ∧ inv.hasStonePickaxe = false ∧
        w.nearbyTable = false ∧ 4 ≤ inv.planks
    · exact absurd ⟨g4c.1, g4c.2.1, g4c.2.2.1, g4c.2.2.2.1, hct⟩ g4a
    rw [if_neg g4c] at hmain
    by_cases g4d : 3 ≤ inv.cobblestone ∧ 2 ≤ inv.sticks ∧ inv.hasStonePickaxe = false ∧
        w.nearbyTable = true
    · rw [if_pos g4d] at hmain; cases hmain; simp
    rw [if_neg g4d] at hmain
    by_cases g5 : inv.hasStonePickaxe = true ∧ inv.ironOre < 3
    · rw [if_pos g5] at hmain; cases hmain; simp
    rw [if_neg g5] at hmain
    by_cases g6 : inv.hasStonePickaxe = true ∧ inv.cobblestone < 20
    · rw [if_pos g6] at hmain; cases hmain; simp
    rw [if_neg g6] at hmain
    cases hmain; simp

/-- Witness for C6's amended theorem: holding a table and five planks
with no station reachable, the planner places the table, and that
decision is not a craft of another table. -/
theorem getNextAction_place_held_table_witness :
    getNextAction viewC6b = some ⟨"place", "crafting_table", "Placing crafting table"⟩ ∧
    ¬((Decision.mk "place" "crafting_table" "Placing crafting table").action = "craft" ∧
      (Decision.mk "place" "crafting_table" "Placing crafting table").target =
        "crafting_table") :=
  ⟨getNextAction_place_held_table.1 viewC6b (by decide) rfl (by decide) (by decide)
    (by decide),
   getNextAction_place_held_table.2 viewC6b
     ⟨"place", "crafting_table", "Placing crafting table"⟩ (by decide)
     (getNextAction_place_held_table.1 viewC6b (by decide) rfl (by decide) (by decide)
       (by decide))⟩

/- ----------------------------------------------------------------- -/
/- C10: cleanJsonResponse is idempotent                               -/
/- ----------------------------------------------------------------- -/

theorem dropNlHead_length_le (l : List Char) : (dropNlHead l).length ≤ l.length := by
  cases l with
  | nil => simp [dropNlHead]
  | cons c rest => simp only [dropNlHead]; split <;> simp

theorem stripFence_nil : stripFence [] = [] := by rw [stripFence]

theorem stripFence_cons (c : Char) (rest : List Char) :
    stripFence (c :: rest) =
      if startsWithL fence (c :: rest) then stripFence (dropNlHead (rest.drop 2))
      else c :: stripFence rest := by
  rw [stripFence]

theorem stripJsonFence_nil : stripJsonFence [] = [] := by rw [stripJsonFence]

theorem stripJsonFence_cons (c : Char) (rest : List Char) :
    stripJsonFence (c :: rest) =
      if startsWithL fenceJson (c :: rest) then stripJsonFence (dropNlHead (rest.drop 6))
      else c :: stripJsonFence rest := by
  rw [stripJsonFence]

theorem starts2_cons_ne (a : Char) (l : List Char) (h : ¬a = '`') :
    starts2 (a :: l) = false := by
  cases l with
  | nil => rfl
  | cons b l2 => simp [starts2, h]

theorem starts2_eq_true_iff (l : List Char) :
    starts2 l = true ↔ ∃ r, l = '`' :: '`' :: r := by
  cases l with
  | nil => simp [starts2]
  | cons a l2 =>
    cases l2 with
    | nil => simp [starts2]
    | cons b l3 =>
      simp only [starts2, Bool.and_eq_true, decide_eq_true_eq, List.cons.injEq]
      constructor
      · rintro ⟨rfl, rfl⟩
        exact ⟨l3, rfl, rfl, rfl⟩
      · rintro ⟨r, rfl, rfl, rfl⟩
        exact ⟨rfl, rfl⟩

theorem noTriple_cons (c : Char) (l : List Char) :
    noTriple (c :: l) = if c = '`' && starts2 l then false else noTriple l := rfl

theorem noTriple_tail {c : Char} {l : List Char} (h : noTriple (c :: l) = true) :
    noTriple l = true := by
  rw [noTriple_cons] at h
  by_cases hc : (c = '`' && starts2 l) = true
  · rw [if_pos hc] at h
    exact absurd h (by decide)
  · rwa [if_neg hc] at h

theorem startsWithL_fence_iff (l : List Char) :
    startsWithL fence l = true ↔ ∃ r, l = '`' :: '`' :: '`' :: r := by
  match l with
  | [] => simp [startsWithL, fence]
  | [a] => simp [startsWithL, fence]
  | [a, b] => simp [startsWithL, fence]
  | a :: b :: c :: r =>
    simp [startsWithL, fence]
    constructor
    · rintro ⟨h1, h2, h3⟩
      exact ⟨h1.symm, h2.symm, h3.symm⟩
    · rintro ⟨h1, h2, h3⟩
      exact ⟨h1.symm, h2.symm, h3.symm⟩

theorem startsWithL_fenceJson_fence (l : List Char) (h : startsWithL fenceJson l = true) :
    startsWithL fence l = true := by
  match l with
  | [] => simp [startsWithL, fenceJson] at h
  | [a] => simp [startsWithL, fenceJson] at h
  | [a, b] => simp [startsWithL, fenceJson] at h
  | a :: b :: c :: r =>
    simp [startsWithL, fenceJson] at h
    simp [startsWithL, fence]
    exact ⟨h.1, h.2.1, h.2.2.1⟩

theorem noTriple_stripFence_aux :
    ∀ (n : Nat) (t : List Char), t.length ≤ n → noTriple (stripFence t) = true := by
  intro n
  induction n with
  | zero =>
    intro t ht
    have ht0 : t = [] := List.length_eq_zero.mp (Nat.le_zero.mp ht)
    subst ht0
    rw [stripFence_nil]
    rfl
  | succ n ih =>
    intro t ht
    cases t with
    | nil => rw [stripFence_nil]; rfl
    | cons c rest =>
      have hrest : rest.length ≤ n := by
        simp only [List.length_cons] at ht; omega
      by_cases hs : startsWithL fence (c :: rest) = true
      · rw [stripFence_cons, if_pos hs]
        apply ih
        calc (dropNlHead (rest.drop 2)).length
            ≤ (rest.drop 2).length := dropNlHead_length_le _
          _ ≤ rest.length := by simp
          _ ≤ n := hrest
      · rw [stripFence_cons, if_neg hs]
        by_cases hc : c = '`'
        · subst hc
          cases rest with
          | nil =>
            rw [stripFence_nil]
            rfl
          | cons d r2 =>
            have hr2 : r2.length ≤ n := by
              simp only [List.length_cons] at ht; omega
            by_cases hd : d = '`'
            · subst hd
              cases r2 with
              | nil =>
                have h1 : stripFence ['`'] = '`' :: stripFence [] := by
                  rw [stripFence_cons, if_neg (by decide)]
                rw [h1, stripFence_nil]
                rfl
              | cons e r3 =>
                have hr3 : r3.length ≤ n := by
                  simp only [List.length_cons] at ht; omega
                have he : ¬e = '`' := by
                  intro he
                  subst he
                  exact hs ((startsWithL_fence_iff _).mpr ⟨r3, rfl⟩)
                have h1 : stripFence ('`' :: e :: r3) = '`' :: stripFence (e :: r3) := by
                  rw [stripFence_cons, if_neg ?_]
                  intro hh
                  obtain ⟨r4, hr4⟩ := (startsWithL_fence_iff _).mp hh
                  simp only [List.cons.injEq] at hr4
                  exact he hr4.2.1
                have h2 : stripFence (e :: r3) = e :: stripFence r3 := by
                  rw [stripFence_cons, if_neg ?_]
                  intro hh
                  obtain ⟨r4, hr4⟩ := (startsWithL_fence_iff _).mp hh
                  simp only [List.cons.injEq] at hr4
                  exact he hr4.1
                rw [h1, h2]
                rw [noTriple_cons, if_neg ?c1, noTriple_cons, if_neg ?c2,
                    noTriple_cons, if_neg ?c3]
                · exact ih r3 hr3
                case c1 =>
                  intro hh
                  rw [Bool.and_eq_true] at hh
                  obtain ⟨-, hh2⟩ := hh
                  obtain ⟨r4, hr4⟩ := (starts2_eq_true_iff _).mp hh2
                  simp only [List.cons.injEq] at hr4
                  exact he hr4.2.1
                case c2 =>
                  intro hh
                  rw [Bool.and_eq_true] at hh
                  obtain ⟨-, hh2⟩ := hh
                  rw [starts2_cons_ne e _ he] at hh2
                  exact absurd hh2 (by decide)
                case c3 =>
                  intro hh
                  rw [Bool.and_eq_true] at hh
                  obtain ⟨hh1, -⟩ := hh
                  exact he (by simpa using hh1)
            · have h2 : stripFence (d :: r2) = d :: stripFence r2 := by
                rw [stripFence_cons, if_neg ?_]
                intro hh
                obtain ⟨r4, hr4⟩ := (startsWithL_fence_iff _).mp hh
                simp only [List.cons.injEq] at hr4
                exact hd hr4.1
              rw [h2]
              rw [noTriple_cons, if_neg ?d1, noTriple_cons, if_neg ?d2]
              · exact ih r2 hr2
              case d1 =>
                intro hh
                rw [Bool.and_eq_true] at hh
                obtain ⟨-, hh2⟩ := hh
                rw [starts2_cons_ne d _ hd] at hh2
                exact absurd hh2 (by decide)
              case d2 =>
                intro hh
                rw [Bool.and_eq_true] at hh
                obtain ⟨hh1, -⟩ := hh
                exact hd (by simpa using hh1)
        · rw [noTriple_cons, if_neg ?_]
          · exact ih rest hrest
          intro hh
          rw [Bool.and_eq_true] at hh
          obtain ⟨hh1, -⟩ := hh
          exact hc (by simpa using hh1)

theorem noTriple_stripFence (t : List Char) : noTriple (stripFence t) = true :=
  noTriple_stripFence_aux t.length t (Nat.le_refl _)

theorem stripFence_id_of_noTriple (t : List Char) (h : noTriple t = true) :
    stripFence t = t := by
  induction t with
  | nil => exact stripFence_nil
  | cons c rest ih =>
    have hs : ¬startsWithL fence (c :: rest) = true := by
      intro hh
      obtain ⟨r, hr⟩ := (startsWithL_fence_iff _).mp hh
      rw [hr, noTriple_cons] at h
      rw [if_pos (by simp [starts2])] at h
      exact absurd h (by decide)
    rw [stripFence_cons, if_neg hs, ih (noTriple_tail h)]

theorem stripJsonFence_id_of_noTriple (t : List Char) (h : noTriple t = true) :
    stripJsonFence t = t := by
  induction t with
  | nil => exact stripJsonFence_nil
  | cons c rest ih =>
    have hs : ¬startsWithL fenceJson (c :: rest) = true := by
      intro hh
      obtain ⟨r, hr⟩ := (startsWithL_fence_iff _).mp (startsWithL_fenceJson_fence _ hh)
      rw [hr, noTriple_cons] at h
      rw [if_pos (by simp [starts2])] at h
      exact absurd h (by decide)
    rw [stripJsonFence_cons, if_neg hs, ih (noTriple_tail h)]

theorem noTriple_eq_false_iff (l : List Char) :
    noTriple l = false ↔ fence <:+: l := by
  induction l with
  | nil =>
    constructor
    · intro h; exact absurd h (by decide)
    · intro h
      have := List.infix_nil.mp h
      simp [fence] at this
  | cons c rest ih =>
    rw [noTriple_cons]
    by_cases hcond : (c = '`' && starts2 rest) = true
    · rw [if_pos hcond]
      constructor
      · intro _
        rw [Bool.and_eq_true] at hcond
        obtain ⟨hc, hsrt⟩ := hcond
        have hc2 : c = '`' := by simpa using hc
        obtain ⟨r, hr⟩ := (starts2_eq_true_iff rest).mp hsrt
        subst hc2
        rw [hr]
        exact ⟨[], r, rfl⟩
      · intro _; rfl
    · rw [if_neg hcond, ih]
      constructor
      · intro hin
        exact List.infix_cons hin
      · intro hin
        rcases List.infix_cons_iff.mp hin with hpre | htail
        · exfalso
          obtain ⟨r, hr⟩ := hpre
          have hr2 : c :: rest = '`' :: '`' :: '`' :: r := by rw [← hr]; rfl
          simp only [List.cons.injEq] at hr2
          obtain ⟨hc, hrest⟩ := hr2
          apply hcond
          rw [Bool.and_eq_true]
          refine ⟨by simp [hc], ?_⟩
          rw [starts2_eq_true_iff]
          exact ⟨r, hrest⟩
        · exact htail

theorem noTriple_mono {l m : List Char} (h : noTriple l = true) (hm : m <:+: l) :
    noTriple m = true := by
  cases hnm : noTriple m with
  | true => rfl
  | false =>
    exfalso
    have h2 : fence <:+: l := ((noTriple_eq_false_iff m).mp hnm).trans hm
    have h3 : noTriple l = false := (noTriple_eq_false_iff l).mpr h2
    rw [h] at h3
    exact absurd h3 (by decide)

theorem nlToSpace_nil : nlToSpace [] = [] := rfl

theorem nlToSpace_cons (c : Char) (l : List Char) :
    nlToSpace (c :: l) = nlChar c :: nlToSpace l := rfl

theorem nlChar_eq_iff (c x : Char) (h1 : ¬x = ' ') (h2 : ¬x = '\n') :
    nlChar c = x ↔ c = x := by
  unfold nlChar
  by_cases hc : c = '\n'
  · subst hc
    rw [if_pos rfl]
    constructor
    · intro hh; exact absurd hh.symm h1
    · intro hh; exact absurd hh.symm h2
  · rw [if_neg hc]

theorem starts2_nlToSpace (l : List Char) : starts2 (nlToSpace l) = starts2 l := by
  cases l with
  | nil => rfl
  | cons a l2 =>
    cases l2 with
    | nil => rfl
    | cons b l3 =>
      rw [nlToSpace_cons, nlToSpace_cons]
      show (decide (nlChar a = '`') && decide (nlChar b = '`')) = _
      rw [decide_eq_decide.mpr (nlChar_eq_iff a '`' (by decide) (by decide)),
          decide_eq_decide.mpr (nlChar_eq_iff b '`' (by decide) (by decide))]
      rfl

theorem noTriple_nlToSpace (l : List Char) : noTriple (nlToSpace l) = noTriple l := by
  induction l with
  | nil => rfl
  | cons c rest ih =>
    rw [nlToSpace_cons, noTriple_cons, noTriple_cons]
    rw [decide_eq_decide.mpr (nlChar_eq_iff c '`' (by decide) (by decide))]
    rw [starts2_nlToSpace, ih]

theorem firstIdx_eq_none_iff (c : Char) (l : List Char) :
    firstIdx c l = none ↔ c ∉ l := by
  induction l with
  | nil => simp [firstIdx]
  | cons x xs ih =>
    by_cases hx : x = c
    · subst hx
      simp [firstIdx]
    · rw [firstIdx, if_neg hx]
      cases hm : firstIdx c xs with
      | some m =>
        rw [hm] at ih
        have hcxs : c ∈ xs := by
          by_contra hcm
          exact absurd (ih.mpr hcm) (by simp)
        simp [hcxs]
      | none =>
        rw [hm] at ih
        have hcx : ¬c = x := fun hh => hx hh.symm
        simp [ih.mp rfl, hcx]

theorem firstIdx_drop (c : Char) (l : List Char) (n : Nat)
    (h : firstIdx c l = some n) : ∃ xs, l.drop n = c :: xs := by
  induction l generalizing n with
  | nil => simp [firstIdx] at h
  | cons x xs ih =>
    by_cases hx : x = c
    · subst hx
      rw [firstIdx, if_pos rfl] at h
      obtain rfl : (0 : Nat) = n := by simpa using h
      exact ⟨xs, rfl⟩
    · rw [firstIdx, if_neg hx] at h
      cases hm : firstIdx c xs with
      | none => rw [hm] at h; simp at h
      | some m =>
        rw [hm] at h
        obtain rfl : m + 1 = n := by simpa using h
        obtain ⟨ys, hys⟩ := ih m hm
        exact ⟨ys, by simpa using hys⟩

theorem lastIdx_eq_none_iff (c : Char) (l : List Char) :
    lastIdx c l = none ↔ c ∉ l := by
  induction l with
  | nil => simp [lastIdx]
  | cons x xs ih =>
    rw [lastIdx]
    cases hm : lastIdx c xs with
    | some m =>
      rw [hm] at ih
      have hcxs : c ∈ xs := by
        by_contra hcm
        exact absurd (ih.mpr hcm) (by simp)
      simp [hcxs]
    | none =>
      rw [hm] at ih
      by_cases hx : x = c
      · subst hx
        simp
      · have hcx : ¬c = x := fun hh => hx hh.symm
        simp [hx, hcx, ih.mp rfl]

theorem lastIdx_take (c : Char) (l : List Char) (n : Nat)
    (h : lastIdx c l = some n) : l.take (n + 1) = l.take n ++ [c] := by
  induction l generalizing n with
  | nil => simp [lastIdx] at h
  | cons x xs ih =>
    rw [lastIdx] at h
    cases hm : lastIdx c xs with
    | some m =>
      rw [hm] at h
      obtain rfl : m + 1 = n := by simpa using h
      simp only [List.take_succ_cons, List.cons_append, List.cons.injEq, true_and]
      exact ih m hm
    | none =>
      rw [hm] at h
      by_cases hx : x = c
      · rw [if_pos hx] at h
        obtain rfl : (0 : Nat) = n := by simpa using h
        simp [hx]
      · rw [if_neg hx] at h
        simp at h

theorem lastIdx_lt_length (c : Char) (l : List Char) (n : Nat)
    (h : lastIdx c l = some n) : n < l.length := by
  induction l generalizing n with
  | nil => simp [lastIdx] at h
  | cons x xs ih =>
    rw [lastIdx] at h
    cases hm : lastIdx c xs with
    | some m =>
      rw [hm] at h
      obtain rfl : m + 1 = n := by simpa using h
      have := ih m hm
      simp only [List.length_cons]
      omega
    | none =>
      rw [hm] at h
      by_cases hx : x = c
      · rw [if_pos hx] at h
        obtain rfl : (0 : Nat) = n := by simpa using h
        simp
      · rw [if_neg hx] at h
        simp at h

theorem sliceFromFirstBrace_suffix (l : List Char) : sliceFromFirstBrace l <:+ l := by
  unfold sliceFromFirstBrace
  cases firstIdx '{' l with
  | none => exact List.suffix_refl l
  | some n =>
    show (if 0 < n then l.drop n else l) <:+ l
    by_cases hn : 0 < n
    · rw [if_pos hn]
      exact List.drop_suffix n l
    · rw [if_neg hn]

theorem sliceFromFirstBrace_braceHead (l : List Char) :
    BraceHeadOk (sliceFromFirstBrace l) := by
  unfold sliceFromFirstBrace
  cases hf : firstIdx '{' l with
  | none =>
    exact Or.inr (Or.inr ((firstIdx_eq_none_iff _ _).mp hf))
  | some n =>
    obtain ⟨xs, hxs⟩ := firstIdx_drop '{' l n hf
    show BraceHeadOk (if 0 < n then l.drop n else l)
    by_cases hn : 0 < n
    · rw [if_pos hn]
      exact Or.inr (Or.inl ⟨xs, hxs⟩)
    · rw [if_neg hn]
      have hn0 : n = 0 := by omega
      subst hn0
      rw [List.drop_zero] at hxs
      exact Or.inr (Or.inl ⟨xs, hxs⟩)

theorem sliceToLastBrace_prefixOf (l : List Char) : sliceToLastBrace l <+: l := by
  unfold sliceToLastBrace
  cases lastIdx '}' l with
  | none => exact List.prefix_refl l
  | some n =>
    show (if n + 1 < l.length then l.take (n + 1) else l) <+: l
    by_cases hn : n + 1 < l.length
    · rw [if_pos hn]
      exact List.take_prefix _ l
    · rw [if_neg hn]

theorem sliceToLastBrace_braceLast (l : List Char) :
    BraceLastOk (sliceToLastBrace l) := by
  unfold sliceToLastBrace
  cases hf : lastIdx '}' l with
  | none =>
    exact Or.inl ((lastIdx_eq_none_iff _ _).mp hf)
  | some n =>
    have htake := lastIdx_take '}' l n hf
    show BraceLastOk (if n + 1 < l.length then l.take (n + 1) else l)
    by_cases hn : n + 1 < l.length
    · rw [if_pos hn]
      exact Or.inr ⟨l.take n, htake⟩
    · rw [if_neg hn]
      have hlen := lastIdx_lt_length '}' l n hf
      have hn1 : n + 1 = l.length := by omega
      refine Or.inr ⟨l.take n, ?_⟩
      calc l = l.take (n + 1) := by rw [hn1, List.take_length]
        _ = l.take n ++ ['}'] := htake

theorem braceHeadOk_of_isPrefix {l s : List Char} (h : BraceHeadOk l) (hp : s <+: l) :
    BraceHeadOk s := by
  rcases h with rfl | ⟨xs, rfl⟩ | hnot
  · exact Or.inl (List.prefix_nil.mp hp)
  · cases s with
    | nil => exact Or.inl rfl
    | cons a as =>
      obtain ⟨t, ht⟩ := hp
      have ha : a = '{' := by
        have h2 := congrArg List.head? ht
        simpa using h2
      exact Or.inr (Or.inl ⟨as, by rw [ha]⟩)
  · exact Or.inr (Or.inr (fun hmem => hnot (hp.subset hmem)))

theorem braceLastOk_of_isSuffix {l s : List Char} (h : BraceLastOk l) (hs : s <:+ l) :
    BraceLastOk s := by
  rcases h with hnot | ⟨xs, rfl⟩
  · exact Or.inl (fun hmem => hnot (hs.subset hmem))
  · cases s with
    | nil => exact Or.inl (by simp)
    | cons a as =>
      obtain ⟨t, ht⟩ := hs
      have h1 := congrArg List.getLast? ht
      rw [List.getLast?_append, List.getLast?_concat] at h1
      have hne : (a :: as) ≠ [] := by simp
      have hsome := List.getLast?_eq_getLast (a :: as) hne
      rw [hsome] at h1
      simp only [Option.or_some] at h1
      have hlast : (a :: as).getLast hne = '}' := by simpa using h1
      refine Or.inr ⟨(a :: as).dropLast, ?_⟩
      conv_lhs => rw [← List.dropLast_concat_getLast hne]
      rw [hlast]

theorem nlChar_ne_nl (c : Char) : ¬nlChar c = '\n' := by
  unfold nlChar
  by_cases hc : c = '\n'
  · rw [if_pos hc]; decide
  · rw [if_neg hc]; exact hc

theorem nlToSpace_mem_iff (x : Char) (h1 : ¬x = ' ') (h2 : ¬x = '\n') (l : List Char) :
    x ∈ nlToSpace l ↔ x ∈ l := by
  unfold nlToSpace
  rw [List.mem_map]
  constructor
  · rintro ⟨c, hc, hceq⟩
    rw [nlChar_eq_iff c x h1 h2] at hceq
    exact hceq ▸ hc
  · intro hx
    exact ⟨x, hx, (nlChar_eq_iff x x h1 h2).mpr rfl⟩

theorem braceHeadOk_nlToSpace {l : List Char} (h : BraceHeadOk l) :
    BraceHeadOk (nlToSpace l) := by
  rcases h with rfl | ⟨xs, rfl⟩ | hnot
  · exact Or.inl rfl
  · exact Or.inr (Or.inl ⟨nlToSpace xs, by rw [nlToSpace_cons]; rfl⟩)
  · exact Or.inr (Or.inr
      (fun hm => hnot ((nlToSpace_mem_iff '{' (by decide) (by decide) l).mp hm)))

theorem braceLastOk_nlToSpace {l : List Char} (h : BraceLastOk l) :
    BraceLastOk (nlToSpace l) := by
  rcases h with hnot | ⟨xs, rfl⟩
  · exact Or.inl
      (fun hm => hnot ((nlToSpace_mem_iff '}' (by decide) (by decide) l).mp hm))
  · refine Or.inr ⟨nlToSpace xs, ?_⟩
    unfold nlToSpace
    rw [List.map_append]
    rfl

theorem nlToSpace_no_nl (l : List Char) : ∀ c ∈ nlToSpace l, ¬c = '\n' := by
  intro c hc
  obtain ⟨d, -, hdc⟩ := List.mem_map.mp hc
  intro hcn
  exact nlChar_ne_nl d (hcn ▸ hdc)

theorem braceHeadOk_trimLeft {l : List Char} (h : BraceHeadOk l) :
    BraceHeadOk (trimLeft l) := by
  rcases h with rfl | ⟨xs, rfl⟩ | hnot
  · exact Or.inl rfl
  · rw [trimLeft, List.dropWhile_cons_of_neg (by decide)]
    exact Or.inr (Or.inl ⟨xs, rfl⟩)
  · exact Or.inr (Or.inr (fun hm => hnot ((List.dropWhile_suffix _).subset hm)))

theorem trimRight_eq_rdropWhile (l : List Char) :
    trimRight l = List.rdropWhile isWsChar l := rfl

theorem braceLastOk_trimRight {l : List Char} (h : BraceLastOk l) :
    BraceLastOk (trimRight l) := by
  rcases h with hnot | ⟨xs, rfl⟩
  · have hp : trimRight l <+: l := List.rdropWhile_prefix _ _
    exact Or.inl (fun hm => hnot (hp.subset hm))
  · have heq : trimRight (xs ++ ['}']) = xs ++ ['}'] := by
      rw [trimRight_eq_rdropWhile]
      exact List.rdropWhile_concat_neg _ _ '}' (by decide)
    rw [heq]
    exact Or.inr ⟨xs, rfl⟩

theorem jsTrim_infix_of (l : List Char) : jsTrim l <:+: l := by
  have h1 : trimLeft l <:+ l := List.dropWhile_suffix _
  have h2 : jsTrim l <+: trimLeft l := List.rdropWhile_prefix _ _
  exact h2.isInfix.trans h1.isInfix

theorem trimLeft_of_trimLeft_self {l : List Char} (h : trimLeft l = l) :
    trimLeft (trimRight l) = trimRight l := by
  cases hc : trimRight l with
  | nil => rfl
  | cons a as =>
    have hp : trimRight l <+: l := List.rdropWhile_prefix _ _
    rw [hc] at hp
    obtain ⟨t, ht⟩ := hp
    have hl : l = a :: (as ++ t) := by rw [← ht]; rfl
    have hna : ¬isWsChar a = true := by
      have h2 : List.dropWhile isWsChar l = l := h
      rw [hl] at h2
      by_contra hws
      rw [List.dropWhile_cons_of_pos (by simpa using hws)] at h2
      have hlen := congrArg List.length h2
      have hle : (List.dropWhile isWsChar (as ++ t)).length ≤ (as ++ t).length :=
        (List.dropWhile_suffix isWsChar).length_le
      simp only [List.length_cons] at hlen
      omega
    rw [trimLeft, List.dropWhile_cons_of_neg hna]

theorem jsTrim_idem (l : List Char) : jsTrim (jsTrim l) = jsTrim l := by
  have h1 : trimLeft (trimLeft l) = trimLeft l := by
    rw [trimLeft, trimLeft, List.dropWhile_idempotent]
  have h2 : trimLeft (trimRight (trimLeft l)) = trimRight (trimLeft l) :=
    trimLeft_of_trimLeft_self h1
  show trimRight (trimLeft (trimRight (trimLeft l))) = trimRight (trimLeft l)
  rw [h2, trimRight_eq_rdropWhile, trimRight_eq_rdropWhile, List.rdropWhile_idempotent]

theorem sliceFromFirstBrace_noop {l : List Char} (h : BraceHeadOk l) :
    sliceFromFirstBrace l = l := by
  unfold sliceFromFirstBrace
  rcases h with rfl | ⟨xs, rfl⟩ | hnot
  · rfl
  · have hf : firstIdx '{' ('{' :: xs) = some 0 := by rw [firstIdx, if_pos rfl]
    rw [hf]
    show (if 0 < 0 then List.drop 0 ('{' :: xs) else '{' :: xs) = '{' :: xs
    rw [if_neg (by omega)]
  · have hf : firstIdx '{' l = none := (firstIdx_eq_none_iff _ _).mpr hnot
    rw [hf]

theorem lastIdx_concat (c : Char) (xs : List Char) :
    lastIdx c (xs ++ [c]) = some xs.length := by
  induction xs with
  | nil => simp [lastIdx]
  | cons x xs2 ih =>
    rw [List.cons_append, lastIdx, ih]
    simp

theorem sliceToLastBrace_noop {l : List Char} (h : BraceLastOk l) :
    sliceToLastBrace l = l := by
  unfold sliceToLastBrace
  rcases h with hnot | ⟨xs, rfl⟩
  · rw [(lastIdx_eq_none_iff _ _).mpr hnot]
  · rw [lastIdx_concat]
    show (if xs.length + 1 < (xs ++ ['}']).length then List.take (xs.length + 1) (xs ++ ['}'])
      else xs ++ ['}']) = xs ++ ['}']
    rw [if_neg (by simp)]

theorem nlToSpace_noop {l : List Char} (h : ∀ c ∈ l, ¬c = '\n') : nlToSpace l = l := by
  induction l with
  | nil => rfl
  | cons c rest ih =>
    rw [nlToSpace_cons, ih (fun d hd => h d (by simp [hd]))]
    have hc : nlChar c = c := by rw [nlChar, if_neg (h c (by simp))]
    rw [hc]

/-- C10: `cleanJsonResponse` is idempotent.  A first pass leaves no fence
match (no three consecutive backticks), leaves the first `{` — when one
occurs — at the front, leaves the last `}` — when one occurs — at the
back, erases every newline and is already trimmed, so a second pass
changes nothing. -/
theorem cleanJsonResponse_idempotent (t : List Char) :
    cleanJsonResponse (cleanJsonResponse t) = cleanJsonResponse t := by
  have hpipe : cleanJsonResponse t =
      jsTrim (nlToSpace (sliceToLastBrace (sliceFromFirstBrace
        (stripFence (stripJsonFence t))))) := rfl
  have hnt : noTriple (cleanJsonResponse t) = true := by
    rw [hpipe]
    have h1 : noTriple (stripFence (stripJsonFence t)) = true := noTriple_stripFence _
    have h2 := noTriple_mono h1 (sliceFromFirstBrace_suffix _).isInfix
    have h3 := noTriple_mono h2 (sliceToLastBrace_prefixOf _).isInfix
    have h4 : noTriple (nlToSpace (sliceToLastBrace (sliceFromFirstBrace
        (stripFence (stripJsonFence t))))) = true := by
      rw [noTriple_nlToSpace]
      exact h3
    exact noTriple_mono h4 (jsTrim_infix_of _)
  have hbh : BraceHeadOk (cleanJsonResponse t) := by
    rw [hpipe]
    exact braceHeadOk_of_isPrefix
      (braceHeadOk_trimLeft
        (braceHeadOk_nlToSpace
          (braceHeadOk_of_isPrefix (sliceFromFirstBrace_braceHead _)
            (sliceToLastBrace_prefixOf _))))
      (List.rdropWhile_prefix _ _)
  have hbl : BraceLastOk (cleanJsonResponse t) := by
    rw [hpipe]
    exact braceLastOk_trimRight
      (braceLastOk_of_isSuffix
        (braceLastOk_nlToSpace (sliceToLastBrace_braceLast _))
        (List.dropWhile_suffix _))
  have hnl : ∀ c ∈ cleanJsonResponse t, ¬c = '\n' := by
    rw [hpipe]
    intro c hc
    exact nlToSpace_no_nl _ c ((jsTrim_infix_of _).subset hc)
  have htrim : jsTrim (cleanJsonResponse t) = cleanJsonResponse t := by
    rw [hpipe]
    exact jsTrim_idem _
  calc cleanJsonResponse (cleanJsonResponse t)
      = jsTrim (nlToSpace (sliceToLastBrace (sliceFromFirstBrace
          (stripFence (stripJsonFence (cleanJsonResponse t)))))) := rfl
    _ = cleanJsonResponse t := by
        rw [stripJsonFence_id_of_noTriple _ hnt, stripFence_id_of_noTriple _ hnt,
            sliceFromFirstBrace_noop hbh, sliceToLastBrace_noop hbl,
            nlToSpace_noop hnl, htrim]
